import Mathlib

/-!
Verification of the innernet client reconciliation core (client/src/main.rs).

The definitions below are a shallow embedding of the `fetch`
reconciliation pass, its change reporting, the hosts-file update, the
`up` control loop, and the peer display ordering of `show`.  Machine
strings (public keys, names) are Lean `String`s; IP addresses and times
are `Nat`; fallible collaborators (device apply, hosts write, data
store) are modelled by explicit success flags, and Rust panics by
`Option` (`none` = panic).
-/

/-- A mesh peer as fetched from the server (`shared::Peer` flattened with
its `PeerContents`): name, internal address, owning CIDR, public key,
optional external endpoint, optional keepalive, disabled flag. -/
structure Peer where
  id : Nat
  name : String
  ip : Nat
  cidrId : Nat
  publicKey : String
  endpoint : Option String
  persistentKeepalive : Option Nat
  isDisabled : Bool
deriving DecidableEq, Repr

/-- The configuration of a peer currently present on the live WireGuard
device (`wgctrl::PeerConfig`), with its public key already rendered in
base64 form. -/
structure PeerConfig where
  publicKey : String
  endpoint : Option String
  allowedIps : List Nat
  persistentKeepalive : Option Nat
deriving DecidableEq, Repr

/-- Live-device peer statistics (`wgctrl::PeerStats`). -/
structure PeerStats where
  lastHandshakeTime : Option Nat
  rxBytes : Nat
  txBytes : Nat
deriving DecidableEq, Repr

/-- A peer as read from the live device (`wgctrl::PeerInfo`). -/
structure PeerInfo where
  config : PeerConfig
  stats : PeerStats
deriving DecidableEq, Repr

/-- A named address block (`shared::Cidr`); only the fields the snapshot
stores are needed here. -/
structure Cidr where
  id : Nat
  name : String
deriving DecidableEq, Repr

/-- A field-level peer diff.  Each component is `some new-value` exactly
when the corresponding field changed, `none` when it is unchanged. -/
structure PeerDiff where
  endpoint : Option (Option String)
  allowedIp : Option Nat
  persistentKeepalive : Option (Option Nat)
deriving DecidableEq, Repr

/-- Modelled from the spec: `Peer::diff` lives in the `shared` crate,
which is not part of the shown source.  Per the spec it computes a
field-level diff (endpoint, allowed address, keepalive), returning
`some` diff carrying only the changed fields when at least one field
differs, and `none` when nothing differs. -/
def Peer.diff (p : Peer) (c : PeerConfig) : Option PeerDiff :=
  let ep : Option (Option String) :=
    if p.endpoint = c.endpoint then none else some p.endpoint
  let ip : Option Nat := if c.allowedIps = [p.ip] then none else some p.ip
  let ka : Option (Option Nat) :=
    if p.persistentKeepalive = c.persistentKeepalive then none
    else some p.persistentKeepalive
  if ep = none ∧ ip = none ∧ ka = none then none else some ⟨ep, ip, ka⟩

/-- One entry of the mutation plan handed to the device
(`PeerConfigBuilder` adds/updates plus `remove_peer_by_key` removals,
collected into one `DeviceConfigBuilder`). -/
inductive Mutation where
  | add : Peer → Mutation
  | modify : String → PeerDiff → Mutation
  | remove : String → Mutation
deriving DecidableEq, Repr

/-- The filter applied to the fetched peer list in `fetch`:
`!peer.is_disabled && peer.public_key != interface_public_key`. -/
def interfaceFilter (interfacePublicKey : String) (p : Peer) : Bool :=
  !p.isDisabled && p.publicKey != interfacePublicKey

/-- The desired peers that survive the disabled/self filter in `fetch`. -/
def filteredPeers (interfacePublicKey : String) (peers : List Peer) : List Peer :=
  peers.filter (interfaceFilter interfacePublicKey)

/-- The lookup `existing_peers.iter().find(|p| p.config.public_key.to_base64() == peer.public_key)`. -/
def findExisting (existingPeers : List PeerInfo) (p : Peer) : Option PeerInfo :=
  existingPeers.find? (fun ex => ex.config.publicKey == p.publicKey)

/-- The `peer_configs_diff` computation of `fetch`: for each desired peer
surviving the filter, an `add` when no device peer has its key, a
`modify` with the field diff when one does and at least one field
differs, and nothing when the peer is already up to date. -/
def peerConfigsDiff (interfacePublicKey : String) (peers : List Peer)
    (existingPeers : List PeerInfo) : List Mutation :=
  (filteredPeers interfacePublicKey peers).filterMap (fun peer =>
    match findExisting existingPeers peer with
    | some ex => (peer.diff ex.config).map (fun d => Mutation.modify peer.publicKey d)
    | none => some (Mutation.add peer))

/-- The removal loop of `fetch`: every device peer whose key appears
nowhere in the (unfiltered) fetched peer list is removed by key. -/
def removedPeers (peers : List Peer) (existingPeers : List PeerInfo) : List Mutation :=
  existingPeers.filterMap (fun ex =>
    if (peers.find? (fun p => p.publicKey == ex.config.publicKey)).isNone
    then some (Mutation.remove ex.config.publicKey) else none)

/-- The full mutation plan of one reconciliation pass: the add/modify
builders followed by the removals, exactly as they are accumulated into
the single `DeviceConfigBuilder` in `fetch`. -/
def mutationPlan (interfacePublicKey : String) (peers : List Peer)
    (existingPeers : List PeerInfo) : List Mutation :=
  peerConfigsDiff interfacePublicKey peers existingPeers ++
    removedPeers peers existingPeers

/-- The key fingerprint slice `&public_key[..10]`: an unchecked 10-byte
range index, which panics (`none`) when the string is shorter than 10. -/
def slice10 (s : String) : Option String :=
  if 10 ≤ s.data.length then some (String.mk (s.data.take 10)) else none

/-- Which kind of change a report line announces. -/
inductive ChangeKind where
  | added
  | modified
  | removed
deriving DecidableEq, Repr

/-- One user-visible change report line of `fetch`: the optional peer
name, the key fingerprint actually printed, and the announced kind. -/
structure ChangeLine where
  peerName : Option String
  fingerprint : String
  kind : ChangeKind
deriving DecidableEq, Repr

/-- The raw report records of one `fetch` pass, before the fingerprint
slice: add/modify lines carry `some` peer name, removal lines carry no
name (the removal `println!` prints only the key fingerprint). -/
def changeRecords (interfacePublicKey : String) (peers : List Peer)
    (existingPeers : List PeerInfo) : List (Option String × String × ChangeKind) :=
  (filteredPeers interfacePublicKey peers).filterMap (fun peer =>
    match findExisting existingPeers peer with
    | some ex => (peer.diff ex.config).map
        (fun _ => (some peer.name, peer.publicKey, ChangeKind.modified))
    | none => some (some peer.name, peer.publicKey, ChangeKind.added)) ++
  existingPeers.filterMap (fun ex =>
    if (peers.find? (fun p => p.publicKey == ex.config.publicKey)).isNone
    then some (none, ex.config.publicKey, ChangeKind.removed) else none)

/-- Render the report records, slicing each key with the unchecked
`[..10]` index; a single short key makes the whole pass panic (`none`). -/
def renderLines : List (Option String × String × ChangeKind) → Option (List ChangeLine)
  | [] => some []
  | r :: rs =>
    match slice10 r.2.1, renderLines rs with
    | some f, some ls => some (ChangeLine.mk r.1 f r.2.2 :: ls)
    | _, _ => none

/-- All change lines printed by one `fetch` pass, or `none` when a key
fingerprint slice panics. -/
def changeLines (interfacePublicKey : String) (peers : List Peer)
    (existingPeers : List PeerInfo) : Option (List ChangeLine) :=
  renderLines (changeRecords interfacePublicKey peers existingPeers)

/-- The hosts mapping written by `update_hosts_file`: one
`(ip, "<name>.<interface>.wg")` entry for every peer of the list it is
handed. -/
def update_hosts_file (interfaceName : String) (peers : List Peer) :
    List (Nat × String) :=
  peers.map (fun p => (p.ip, p.name ++ "." ++ interfaceName ++ ".wg"))

/-- The locally persisted snapshot (`DataStore` contents): last-known
peer and CIDR lists. -/
structure Snapshot where
  peers : List Peer
  cidrs : List Cidr
deriving DecidableEq, Repr

/-- Success flags for the fallible collaborators touched by the tail of
`fetch`: device apply, hosts-file write, and the data store. -/
structure Collaborators where
  applyOk : Bool
  hostsOk : Bool
  addPeersOk : Bool
  writeOk : Bool
deriving DecidableEq, Repr

/-- Observable outcome of the tail of one `fetch` pass: whether the
device apply was invoked, the peer list passed to `update_hosts_file`
(if it was invoked), the snapshot that is persisted after the pass, and
the returned result. -/
structure FetchTrace where
  applyCalled : Bool
  hostsArg : Option (List Peer)
  finalStore : Snapshot
  result : Except String Unit
deriving Repr

/-- Modelled from the spec: the `DataStore` persistence methods
(`set_cidrs`, `add_peers`, `write`) live in `data_store.rs`, which is
not part of the shown source.  Per the spec they replace both
collections wholesale and atomically persist the snapshot; a failure
leaves the previously persisted snapshot intact. -/
def persistStore (peers : List Peer) (cidrs : List Cidr) (store : Snapshot)
    (c : Collaborators) : Snapshot × Except String Unit :=
  if c.addPeersOk then
    if c.writeOk then ({ peers := peers, cidrs := cidrs }, Except.ok ())
    else (store, Except.error "data store write failed")
  else (store, Except.error "data store add_peers failed")

/-- The tail of `fetch` (everything after the plan is computed): when
the plan is non-empty, apply it to the device, then update the hosts
file with the full fetched peer list; in either case, finally replace
and persist the snapshot.  Each failing step returns its error
immediately, exactly following the `?` control flow of the source. -/
def fetchApplyStage (interfacePublicKey : String) (peers : List Peer)
    (cidrs : List Cidr) (existingPeers : List PeerInfo) (store : Snapshot)
    (c : Collaborators) : FetchTrace :=
  if (mutationPlan interfacePublicKey peers existingPeers).isEmpty then
    let pr := persistStore peers cidrs store c
    { applyCalled := false, hostsArg := none, finalStore := pr.1, result := pr.2 }
  else if c.applyOk then
    if c.hostsOk then
      let pr := persistStore peers cidrs store c
      { applyCalled := true, hostsArg := some peers, finalStore := pr.1,
        result := pr.2 }
    else
      { applyCalled := true, hostsArg := some peers, finalStore := store,
        result := Except.error "hosts update failed" }
  else
    { applyCalled := true, hostsArg := none, finalStore := store,
      result := Except.error "device apply failed" }

/-- The `up` control loop in daemon mode, driven by the outcomes of the
successive `fetch` cycles it would run: it executes cycles in order and
stops at the first error, returning it.  The result is the number of
cycles actually executed together with the final result. -/
def upDaemonRun : List (Except String Unit) → Nat × Except String Unit
  | [] => (0, Except.ok ())
  | Except.error e :: _ => (1, Except.error e)
  | Except.ok _ :: rest =>
    let nr := upDaemonRun rest
    (nr.1 + 1, nr.2)

/-- Error handling in `main`: a returned error terminates the process
with a non-zero status. -/
def mainExitCode : Except String Unit → Nat
  | Except.ok _ => 0
  | Except.error _ => 1

/-- A peer as presented by `show`: the internal address held by the
store joined with the last-handshake statistic of the device. -/
structure DisplayPeer where
  name : String
  ip : Nat
  lastHandshakeTime : Option Nat
deriving DecidableEq, Repr

/-- Strict order on `Option` handshake times, as Rust orders
`Option<SystemTime>`: `None` is below every `Some`. -/
def optTimeLt : Option Nat → Option Nat → Bool
  | none, none => false
  | none, some _ => true
  | some _, none => false
  | some a, some b => a < b

/-- The sort key order of `show`:
`(Reverse(last_handshake_time), ip)` compared lexicographically, i.e.
descending handshake time with `None` last, ties broken by ascending
internal address. -/
def peerOrderLe (a b : DisplayPeer) : Bool :=
  optTimeLt b.lastHandshakeTime a.lastHandshakeTime ||
    (decide (a.lastHandshakeTime = b.lastHandshakeTime) && decide (a.ip ≤ b.ip))

/-- The peer presentation order of `show`: a stable sort by
`peerOrderLe` ( `Vec::sort_by_key` is a stable sort). -/
def sortPeers (l : List DisplayPeer) : List DisplayPeer :=
  l.mergeSort peerOrderLe

/-- The key-fingerprint line data of `print_interface`: panics (`none`)
when the device public key is shorter than 10 bytes, otherwise the
interface name with the 10-character fingerprint, plus the ip line. -/
def print_interface (deviceName : String) (devicePublicKey : String)
    (me : Peer) (short : Bool) : Option (List (String × String)) :=
  (slice10 devicePublicKey).map (fun fp =>
    if short then
      [(deviceName, me.ip.repr ++ " " ++ me.name ++ " (" ++ fp ++ "...)")]
    else
      [("interface", deviceName ++ " (" ++ fp ++ "...)"),
       ("ip", me.ip.repr)])

/-- The key-fingerprint line data of `print_peer`: panics (`none`) when
the public key of the stored peer is shorter than 10 bytes, otherwise the
name/fingerprint line plus the ip and optional endpoint lines. -/
def print_peer (ourPeer : Peer) (short : Bool) : Option (List (String × String)) :=
  (slice10 ourPeer.publicKey).map (fun fp =>
    if short then
      [(ourPeer.ip.repr, ourPeer.name ++ " (" ++ fp ++ "...)")]
    else
      ("peer", ourPeer.name ++ " (" ++ fp ++ "...)") ::
        ("ip", ourPeer.ip.repr) ::
        (match ourPeer.endpoint with
         | some e => [("endpoint", e)]
         | none => []))

/-- A diff carries only the changed fields: each component is present
(with the new desired value) exactly when the desired peer and the
device configuration differ on that field. -/
def diffOnlyChanged (p : Peer) (c : PeerConfig) (d : PeerDiff) : Prop :=
  d.endpoint = (if p.endpoint = c.endpoint then none else some p.endpoint) ∧
  d.allowedIp = (if c.allowedIps = [p.ip] then none else some p.ip) ∧
  d.persistentKeepalive =
    (if p.persistentKeepalive = c.persistentKeepalive then none
     else some p.persistentKeepalive)

/-- The plan contains an `add` of a peer with the given key. -/
def hasAddKey (plan : List Mutation) (k : String) : Prop :=
  ∃ p, Mutation.add p ∈ plan ∧ p.publicKey = k

/-- The plan contains a `modify` keyed by the given key. -/
def hasModifyKey (plan : List Mutation) (k : String) : Prop :=
  ∃ d, Mutation.modify k d ∈ plan

/-- The plan contains a `remove` of the given key. -/
def hasRemoveKey (plan : List Mutation) (k : String) : Prop :=
  Mutation.remove k ∈ plan

/-- Number of `add` mutations of exactly this peer in the plan. -/
def countAdd (plan : List Mutation) (p : Peer) : Nat :=
  plan.countP (fun m => decide (m = Mutation.add p))

/-- Number of `modify` mutations keyed by this key in the plan. -/
def countModifyKey (plan : List Mutation) (k : String) : Nat :=
  plan.countP (fun m =>
    match m with
    | Mutation.modify k9 _ => decide (k9 = k)
    | _ => false)

/-- Number of `remove` mutations of this key in the plan. -/
def countRemove (plan : List Mutation) (k : String) : Nat :=
  plan.countP (fun m => decide (m = Mutation.remove k))

/-- Sample fixture: an enabled desired peer named alpha. -/
def samplePeerA : Peer := ⟨2, "alpha", 2, 1, "AAAAAAAAAABBBB", some "e1", none, false⟩

/-- Sample fixture: the device configuration matching `samplePeerA`. -/
def sampleInfoA : PeerInfo := ⟨⟨"AAAAAAAAAABBBB", some "e1", [2], none⟩, ⟨none, 0, 0⟩⟩

/-- Sample fixture: `samplePeerA` with a changed endpoint. -/
def samplePeerA2 : Peer := ⟨2, "alpha", 2, 1, "AAAAAAAAAABBBB", some "e2", none, false⟩

/-- Sample fixture: a disabled desired peer. -/
def samplePeerD : Peer := ⟨3, "delta", 3, 1, "DDDDDDDDDDDDDD", none, none, true⟩

/-- Sample fixture: the device configuration matching `samplePeerD`. -/
def sampleInfoD : PeerInfo := ⟨⟨"DDDDDDDDDDDDDD", none, [3], none⟩, ⟨none, 0, 0⟩⟩

/-- Sample fixture: the desired peer entry of the local interface itself. -/
def samplePeerSelf : Peer := ⟨1, "me", 9, 1, "IFACEKEYAAAA", none, none, false⟩

/-- Sample fixture: a device peer whose key appears in no desired list used here. -/
def sampleInfoG : PeerInfo := ⟨⟨"GGGGGGGGGGGGGG", none, [7], none⟩, ⟨none, 0, 0⟩⟩

/-- Sample fixture: a brand-new desired peer absent from the device. -/
def samplePeerN : Peer := ⟨5, "new", 5, 1, "NNNNNNNNNNNNNN", none, none, false⟩

/-- Sample fixture: an empty previously persisted snapshot. -/
def sampleStore : Snapshot := ⟨[], []⟩

/-- Sample fixture: all collaborators succeed. -/
def sampleEnvOk : Collaborators := ⟨true, true, true, true⟩

/-- Sample fixture: the device apply fails, everything else would succeed. -/
def sampleEnvApplyFail : Collaborators := ⟨false, true, true, true⟩

/-- Sample fixture: a device peer whose base64 key string is shorter
than 10 bytes. -/
def sampleInfoShort : PeerInfo := ⟨⟨"SHORT", none, [8], none⟩, ⟨none, 0, 0⟩⟩

lemma interfaceFilter_eq_true {k : String} {p : Peer} :
    interfaceFilter k p = true ↔ p.isDisabled = false ∧ p.publicKey ≠ k := by
  simp [interfaceFilter, Bool.and_eq_true, Bool.not_eq_true', bne_iff_ne]

lemma mem_filteredPeers {k : String} {peers : List Peer} {p : Peer} :
    p ∈ filteredPeers k peers ↔
      p ∈ peers ∧ p.isDisabled = false ∧ p.publicKey ≠ k := by
  simp [filteredPeers, List.mem_filter, interfaceFilter_eq_true]

lemma findExisting_eq_none {E : List PeerInfo} {p : Peer} :
    findExisting E p = none ↔ ∀ ex ∈ E, ex.config.publicKey ≠ p.publicKey := by
  simp [findExisting, List.find?_eq_none]

lemma findExisting_some_mem {E : List PeerInfo} {p : Peer} {ex : PeerInfo}
    (h : findExisting E p = some ex) :
    ex ∈ E ∧ ex.config.publicKey = p.publicKey := by
  refine ⟨List.mem_of_find?_eq_some h, ?_⟩
  have := List.find?_some h
  simpa using this

lemma find?_key_self {α β : Type} [DecidableEq β] (f : α → β) :
    ∀ (l : List α) (a : α), (l.map f).Nodup → a ∈ l →
      l.find? (fun x => f x == f a) = some a := by
  intro l
  induction l with
  | nil => intro a _ ha; cases ha
  | cons b t ih =>
    intro a hnd ha
    rw [List.map_cons, List.nodup_cons] at hnd
    by_cases hba : f b = f a
    · have hab : a = b := by
        rcases List.mem_cons.1 ha with h | h
        · exact h
        · exact absurd (hba ▸ List.mem_map_of_mem f h) hnd.1
      subst hab
      simp [List.find?_cons_of_pos, hba]
    · rcases List.mem_cons.1 ha with h | h
      · subst h
        exact absurd rfl hba
      · have hstep : List.find? (fun x => f x == f a) (b :: t) =
            List.find? (fun x => f x == f a) t := by
          simp [List.find?_cons, hba]
        rw [hstep, ih a hnd.2 h]

lemma nodup_key_inj {α β : Type} [DecidableEq β] {f : α → β} {l : List α}
    {x y : α} (hx : x ∈ l) (hy : y ∈ l) (hnd : (l.map f).Nodup)
    (hkey : f x = f y) : x = y :=
  List.inj_on_of_nodup_map hnd hx hy hkey

lemma add_mem_peerConfigsDiff {k : String} {peers : List Peer}
    {E : List PeerInfo} {q : Peer} :
    Mutation.add q ∈ peerConfigsDiff k peers E ↔
      q ∈ filteredPeers k peers ∧ findExisting E q = none := by
  unfold peerConfigsDiff
  rw [List.mem_filterMap]
  constructor
  · rintro ⟨p, hp, hf⟩
    rcases hfe : findExisting E p with _ | ex
    · rw [hfe] at hf
      simp only [Option.some.injEq, Mutation.add.injEq] at hf
      subst hf
      exact ⟨hp, hfe⟩
    · rw [hfe] at hf
      rcases hd : p.diff ex.config with _ | d <;> simp [hd] at hf
  · rintro ⟨hq, hfe⟩
    exact ⟨q, hq, by rw [hfe]⟩

lemma modify_mem_peerConfigsDiff {k : String} {peers : List Peer}
    {E : List PeerInfo} {s : String} {d : PeerDiff} :
    Mutation.modify s d ∈ peerConfigsDiff k peers E ↔
      ∃ p ∈ filteredPeers k peers, p.publicKey = s ∧
        ∃ ex, findExisting E p = some ex ∧ p.diff ex.config = some d := by
  unfold peerConfigsDiff
  rw [List.mem_filterMap]
  constructor
  · rintro ⟨p, hp, hf⟩
    rcases hfe : findExisting E p with _ | ex
    · rw [hfe] at hf
      simp at hf
    · rw [hfe] at hf
      rcases hd : p.diff ex.config with _ | d9
      · simp [hd] at hf
      · simp only [hd, Option.map_some', Option.some.injEq, Mutation.modify.injEq] at hf
        exact ⟨p, hp, hf.1, ex, hfe, by rw [hd, hf.2]⟩
  · rintro ⟨p, hp, hks, ex, hfe, hd⟩
    exact ⟨p, hp, by simp [hfe, hd, hks]⟩

lemma remove_not_mem_peerConfigsDiff {k : String} {peers : List Peer}
    {E : List PeerInfo} {s : String} :
    Mutation.remove s ∉ peerConfigsDiff k peers E := by
  intro h
  rcases List.mem_filterMap.1 h with ⟨p, _, hf⟩
  rcases hfe : findExisting E p with _ | ex <;> rw [hfe] at hf
  · simp at hf
  · rcases hd : p.diff ex.config with _ | d <;> simp [hd] at hf

lemma mem_removedPeers_shape {peers : List Peer} {E : List PeerInfo}
    {m : Mutation} (h : m ∈ removedPeers peers E) :
    ∃ s, m = Mutation.remove s := by
  rcases List.mem_filterMap.1 h with ⟨ex, _, hf⟩
  by_cases hc : (peers.find? (fun p => p.publicKey == ex.config.publicKey)).isNone
  · rw [if_pos hc] at hf
    exact ⟨ex.config.publicKey, (Option.some.injEq _ _ ▸ hf).symm⟩
  · rw [if_neg hc] at hf
    cases hf

lemma remove_mem_removedPeers {peers : List Peer} {E : List PeerInfo} {s : String} :
    Mutation.remove s ∈ removedPeers peers E ↔
      ∃ ex ∈ E, ex.config.publicKey = s ∧ ∀ p ∈ peers, p.publicKey ≠ s := by
  unfold removedPeers
  rw [List.mem_filterMap]
  constructor
  · rintro ⟨ex, hex, hf⟩
    by_cases hc : (peers.find? (fun p => p.publicKey == ex.config.publicKey)).isNone
    · rw [if_pos hc] at hf
      simp only [Option.some.injEq, Mutation.remove.injEq] at hf
      subst hf
      refine ⟨ex, hex, rfl, ?_⟩
      rw [Option.isNone_iff_eq_none, List.find?_eq_none] at hc
      simpa using hc
    · rw [if_neg hc] at hf
      cases hf
  · rintro ⟨ex, hex, hks, hnone⟩
    refine ⟨ex, hex, ?_⟩
    have hc : (peers.find? (fun p => p.publicKey == ex.config.publicKey)).isNone := by
      rw [Option.isNone_iff_eq_none, List.find?_eq_none]
      simpa [hks] using hnone
    rw [if_pos hc, hks]

lemma mem_mutationPlan {k : String} {peers : List Peer} {E : List PeerInfo}
    {m : Mutation} :
    m ∈ mutationPlan k peers E ↔
      m ∈ peerConfigsDiff k peers E ∨ m ∈ removedPeers peers E := by
  simp [mutationPlan, List.mem_append]

/-- C2 (counterexample): for a disabled desired peer whose key is
currently configured on the live device, the reconciliation pass emits
no Remove mutation — the removal check searches the unfiltered desired
list, which still contains the disabled peer.  This refutes the claim
that such a peer is removed. -/
theorem C2_disabled_peer_counterexample :
    samplePeerD.isDisabled = true ∧
    sampleInfoD.config.publicKey = samplePeerD.publicKey ∧
    Mutation.remove samplePeerD.publicKey ∉
      mutationPlan "IFACEKEYAAAA" [samplePeerD] [sampleInfoD] := by
  refine ⟨rfl, rfl, ?_⟩
  have h : mutationPlan "IFACEKEYAAAA" [samplePeerD] [sampleInfoD] = [] := rfl
  rw [h]
  exact List.not_mem_nil _

/-- C2 (amended): a disabled desired peer is never Added or Modified by
a reconciliation pass; and if a peer with its public key is currently
configured on the live device, no Remove mutation is emitted for it
either, because the removal check uses the unfiltered desired list,
which still contains the disabled peer. -/
theorem C2_disabled_peer_amended (k : String) (peers : List Peer)
    (E : List PeerInfo) (p : Peer) (hp : p ∈ peers) (_hdis : p.isDisabled = true)
    (hall : ∀ q ∈ peers, q.publicKey = p.publicKey → q.isDisabled = true) :
    (∀ q, Mutation.add q ∈ mutationPlan k peers E → q.publicKey ≠ p.publicKey) ∧
    (∀ d, Mutation.modify p.publicKey d ∉ mutationPlan k peers E) ∧
    Mutation.remove p.publicKey ∉ mutationPlan k peers E := by
  refine ⟨?_, ?_, ?_⟩
  · intro q hq hkey
    rcases mem_mutationPlan.1 hq with h | h
    · have hmem := mem_filteredPeers.1 (add_mem_peerConfigsDiff.1 h).1
      have hdq := hall q hmem.1 hkey
      rw [hmem.2.1] at hdq
      exact Bool.false_ne_true hdq
    · rcases mem_removedPeers_shape h with ⟨s, hs⟩
      simp at hs
  · intro d hq
    rcases mem_mutationPlan.1 hq with h | h
    · rcases modify_mem_peerConfigsDiff.1 h with ⟨q, hqf, hkq, _⟩
      have hmem := mem_filteredPeers.1 hqf
      have hdq := hall q hmem.1 hkq
      rw [hmem.2.1] at hdq
      exact Bool.false_ne_true hdq
    · rcases mem_removedPeers_shape h with ⟨s, hs⟩
      simp at hs
  · intro hq
    rcases mem_mutationPlan.1 hq with h | h
    · exact remove_not_mem_peerConfigsDiff h
    · rcases remove_mem_removedPeers.1 h with ⟨ex, _, _, hnone⟩
      exact hnone p hp rfl

/-- C2 (witness): the amended statement applied to the concrete disabled
peer fixture present on the device. -/
theorem C2_disabled_peer_amended_witness :
    samplePeerD ∈ [samplePeerD] ∧ samplePeerD.isDisabled = true ∧
    (∀ q ∈ [samplePeerD], q.publicKey = samplePeerD.publicKey →
      q.isDisabled = true) ∧
    ((∀ q, Mutation.add q ∈ mutationPlan "IFACEKEYAAAA" [samplePeerD] [sampleInfoD] →
        q.publicKey ≠ samplePeerD.publicKey) ∧
     (∀ d, Mutation.modify samplePeerD.publicKey d ∉
        mutationPlan "IFACEKEYAAAA" [samplePeerD] [sampleInfoD]) ∧
     Mutation.remove samplePeerD.publicKey ∉
        mutationPlan "IFACEKEYAAAA" [samplePeerD] [sampleInfoD]) :=
  ⟨by simp, rfl, by decide, C2_disabled_peer_amended "IFACEKEYAAAA" [samplePeerD]
    [sampleInfoD] samplePeerD (by simp) rfl (by decide)⟩

/-- C4 (counterexample): a reconciliation pass with a non-empty plan
passes the full unfiltered desired list to the hosts-file update, so the
peer whose public key equals the local interface key does appear in the
hostname update, refuting the claim for that output. -/
theorem C4_self_exclusion_counterexample :
    samplePeerSelf.publicKey = "IFACEKEYAAAA" ∧
    mutationPlan "IFACEKEYAAAA" [samplePeerSelf] [sampleInfoG] ≠ [] ∧
    (fetchApplyStage "IFACEKEYAAAA" [samplePeerSelf] [] [sampleInfoG] sampleStore
      sampleEnvOk).hostsArg = some [samplePeerSelf] ∧
    (samplePeerSelf.ip, samplePeerSelf.name ++ "." ++ "wg0" ++ ".wg") ∈
      update_hosts_file "wg0" [samplePeerSelf] := by
  refine ⟨rfl, ?_, rfl, ?_⟩
  · have h : mutationPlan "IFACEKEYAAAA" [samplePeerSelf] [sampleInfoG] =
        [Mutation.remove "GGGGGGGGGGGGGG"] := rfl
    rw [h]
    simp
  · simp [update_hosts_file]

/-- C4 (amended): a desired peer whose public key equals the local
interface key never appears in any Add, Modify or Remove mutation of the
plan; the hostname update, however, is passed the full unfiltered
desired list, which contains that peer entry. -/
theorem C4_self_exclusion_amended (k : String) (peers : List Peer)
    (E : List PeerInfo) (p : Peer) (hp : p ∈ peers) (hkey : p.publicKey = k)
    (cidrs : List Cidr) (store : Snapshot) (c : Collaborators) :
    (∀ q, Mutation.add q ∈ mutationPlan k peers E → q.publicKey ≠ k) ∧
    (∀ d, Mutation.modify k d ∉ mutationPlan k peers E) ∧
    Mutation.remove k ∉ mutationPlan k peers E ∧
    (mutationPlan k peers E ≠ [] → c.applyOk = true →
      (fetchApplyStage k peers cidrs E store c).hostsArg = some peers) := by
  refine ⟨?_, ?_, ?_, ?_⟩
  · intro q hq
    rcases mem_mutationPlan.1 hq with h | h
    · exact (mem_filteredPeers.1 (add_mem_peerConfigsDiff.1 h).1).2.2
    · rcases mem_removedPeers_shape h with ⟨s, hs⟩
      simp at hs
  · intro d hq
    rcases mem_mutationPlan.1 hq with h | h
    · rcases modify_mem_peerConfigsDiff.1 h with ⟨q, hqf, hkq, _⟩
      exact (mem_filteredPeers.1 hqf).2.2 hkq
    · rcases mem_removedPeers_shape h with ⟨s, hs⟩
      simp at hs
  · intro hq
    rcases mem_mutationPlan.1 hq with h | h
    · exact remove_not_mem_peerConfigsDiff h
    · rcases remove_mem_removedPeers.1 h with ⟨ex, _, _, hnone⟩
      exact hnone p hp hkey
  · intro hne happly
    unfold fetchApplyStage
    rw [if_neg (by simpa using hne), if_pos happly]
    by_cases hh : c.hostsOk = true
    · rw [if_pos hh]
    · rw [if_neg hh]

/-- C4 (witness): the amended statement applied to the concrete self
peer fixture. -/
theorem C4_self_exclusion_amended_witness :
    samplePeerSelf ∈ [samplePeerSelf] ∧
    samplePeerSelf.publicKey = "IFACEKEYAAAA" ∧
    ((∀ q, Mutation.add q ∈ mutationPlan "IFACEKEYAAAA" [samplePeerSelf] [sampleInfoG] →
        q.publicKey ≠ "IFACEKEYAAAA") ∧
     (∀ d, Mutation.modify "IFACEKEYAAAA" d ∉
        mutationPlan "IFACEKEYAAAA" [samplePeerSelf] [sampleInfoG]) ∧
     Mutation.remove "IFACEKEYAAAA" ∉
        mutationPlan "IFACEKEYAAAA" [samplePeerSelf] [sampleInfoG] ∧
     (mutationPlan "IFACEKEYAAAA" [samplePeerSelf] [sampleInfoG] ≠ [] →
        sampleEnvOk.applyOk = true →
        (fetchApplyStage "IFACEKEYAAAA" [samplePeerSelf] [] [sampleInfoG]
          sampleStore sampleEnvOk).hostsArg = some [samplePeerSelf])) :=
  ⟨by simp, rfl, C4_self_exclusion_amended "IFACEKEYAAAA" [samplePeerSelf]
    [sampleInfoG] samplePeerSelf (by simp) rfl [] sampleStore sampleEnvOk⟩

/-- C5 (counterexample): with a non-empty plan the hosts-file update is
handed the full unfiltered desired list, so a disabled peer and the self
peer both appear in the name-to-address mapping update, refuting the
claimed exclusion. -/
theorem C5_hosts_full_list_counterexample :
    samplePeerD.isDisabled = true ∧
    samplePeerSelf.publicKey = "IFACEKEYAAAA" ∧
    (fetchApplyStage "IFACEKEYAAAA" [samplePeerN, samplePeerD, samplePeerSelf]
      [] [] sampleStore sampleEnvOk).hostsArg =
      some [samplePeerN, samplePeerD, samplePeerSelf] :=
  ⟨rfl, rfl, rfl⟩

/-- C5 (amended): whenever the mutation plan is non-empty and the device
apply succeeds, the hostname-mapping collaborator is updated with the
full unfiltered desired peer list (disabled and self entries included),
each desired peer contributing its name-to-address entry. -/
theorem C5_hosts_full_list_amended (ifname k : String) (peers : List Peer)
    (cidrs : List Cidr) (E : List PeerInfo) (store : Snapshot)
    (c : Collaborators) (h1 : mutationPlan k peers E ≠ [])
    (h2 : c.applyOk = true) :
    (fetchApplyStage k peers cidrs E store c).hostsArg = some peers ∧
    ∀ p ∈ peers, (p.ip, p.name ++ "." ++ ifname ++ ".wg") ∈
      update_hosts_file ifname peers := by
  constructor
  · unfold fetchApplyStage
    rw [if_neg (by simpa using h1), if_pos h2]
    by_cases hh : c.hostsOk = true
    · rw [if_pos hh]
    · rw [if_neg hh]
  · intro p hp
    exact List.mem_map_of_mem _ hp

/-- C5 (witness): the amended statement applied to a concrete desired
list containing an enabled and a disabled peer. -/
theorem C5_hosts_full_list_amended_witness :
    mutationPlan "IFACEKEYAAAA" [samplePeerN, samplePeerD] [] ≠ [] ∧
    sampleEnvOk.applyOk = true ∧
    ((fetchApplyStage "IFACEKEYAAAA" [samplePeerN, samplePeerD] [] [] sampleStore
        sampleEnvOk).hostsArg = some [samplePeerN, samplePeerD] ∧
     ∀ p ∈ [samplePeerN, samplePeerD],
        (p.ip, p.name ++ "." ++ "wg0" ++ ".wg") ∈
          update_hosts_file "wg0" [samplePeerN, samplePeerD]) :=
  ⟨by simp [show mutationPlan "IFACEKEYAAAA" [samplePeerN, samplePeerD] [] =
      [Mutation.add samplePeerN] from rfl], rfl,
   C5_hosts_full_list_amended "wg0" "IFACEKEYAAAA" [samplePeerN, samplePeerD]
     [] [] sampleStore sampleEnvOk
     (by simp [show mutationPlan "IFACEKEYAAAA" [samplePeerN, samplePeerD] [] =
        [Mutation.add samplePeerN] from rfl]) rfl⟩

/-- C9: within one fetch cycle the snapshot is replaced and persisted
only after the device apply and the hosts update both succeeded (or the
plan was empty and both were skipped); when either of them fails, fetch
returns the error and the persisted snapshot is exactly the previous
one. -/
theorem C9_persist_only_after_apply (k : String) (peers : List Peer)
    (cidrs : List Cidr) (E : List PeerInfo) (store : Snapshot)
    (c : Collaborators) :
    (mutationPlan k peers E ≠ [] → (c.applyOk = false ∨ c.hostsOk = false) →
      (∃ e, (fetchApplyStage k peers cidrs E store c).result = Except.error e) ∧
      (fetchApplyStage k peers cidrs E store c).finalStore = store) ∧
    ((fetchApplyStage k peers cidrs E store c).finalStore ≠ store →
      mutationPlan k peers E = [] ∨ (c.applyOk = true ∧ c.hostsOk = true)) := by
  constructor
  · intro hne hfail
    unfold fetchApplyStage
    rw [if_neg (by simpa using hne)]
    by_cases ha : c.applyOk = true
    · rcases hfail with h | h
      · rw [h] at ha
        cases ha
      · rw [if_pos ha, if_neg (by simp [h])]
        exact ⟨⟨"hosts update failed", rfl⟩, rfl⟩
    · rw [if_neg ha]
      exact ⟨⟨"device apply failed", rfl⟩, rfl⟩
  · intro hch
    by_cases hp : (mutationPlan k peers E).isEmpty = true
    · left
      simpa using hp
    · right
      by_cases ha : c.applyOk = true
      · by_cases hh : c.hostsOk = true
        · exact ⟨ha, hh⟩
        · exfalso
          apply hch
          unfold fetchApplyStage
          rw [if_neg hp, if_pos ha, if_neg hh]
      · exfalso
        apply hch
        unfold fetchApplyStage
        rw [if_neg hp, if_neg ha]

/-- C9 (witness): with a non-empty plan and a failing device apply, the
fetch cycle returns an error and the persisted snapshot is unchanged. -/
theorem C9_persist_only_after_apply_witness :
    mutationPlan "IFACEKEYAAAA" [samplePeerN] [] ≠ [] ∧
    (sampleEnvApplyFail.applyOk = false ∨ sampleEnvApplyFail.hostsOk = false) ∧
    (∃ e, (fetchApplyStage "IFACEKEYAAAA" [samplePeerN] [] [] sampleStore
      sampleEnvApplyFail).result = Except.error e) ∧
    (fetchApplyStage "IFACEKEYAAAA" [samplePeerN] [] [] sampleStore
      sampleEnvApplyFail).finalStore = sampleStore :=
  ⟨by simp [show mutationPlan "IFACEKEYAAAA" [samplePeerN] [] =
      [Mutation.add samplePeerN] from rfl],
   Or.inl rfl,
   ((C9_persist_only_after_apply "IFACEKEYAAAA" [samplePeerN] [] [] sampleStore
      sampleEnvApplyFail).1
     (by simp [show mutationPlan "IFACEKEYAAAA" [samplePeerN] [] =
        [Mutation.add samplePeerN] from rfl]) (Or.inl rfl)).1,
   ((C9_persist_only_after_apply "IFACEKEYAAAA" [samplePeerN] [] [] sampleStore
      sampleEnvApplyFail).1
     (by simp [show mutationPlan "IFACEKEYAAAA" [samplePeerN] [] =
        [Mutation.add samplePeerN] from rfl]) (Or.inl rfl)).2⟩

lemma upDaemonRun_ok_leading (oks : List (Except String Unit))
    (hoks : ∀ r ∈ oks, r = Except.ok ()) (e : String)
    (rest : List (Except String Unit)) :
    upDaemonRun (oks ++ Except.error e :: rest) =
      (oks.length + 1, Except.error e) := by
  induction oks with
  | nil => simp [upDaemonRun]
  | cons r t ih =>
    have hr : r = Except.ok () := hoks r (List.mem_cons_self r t)
    subst hr
    have ht : ∀ x ∈ t, x = Except.ok () :=
      fun x hx => hoks x (List.mem_cons_of_mem _ hx)
    simp [upDaemonRun, ih ht]

/-- C8: the control loop performs no retry — the daemon loop executes
cycles in order and terminates at the first failing cycle, returning its
error (which `main` turns into a non-zero exit), having executed exactly
the cycles up to and including the failing one; and inside one fetch
cycle a failing device apply is returned immediately, without attempting
the subsequent hosts update. -/
theorem C8_error_abort (oks rest : List (Except String Unit)) (e : String)
    (hoks : ∀ r ∈ oks, r = Except.ok ())
    (k : String) (peers : List Peer) (cidrs : List Cidr) (E : List PeerInfo)
    (store : Snapshot) (c : Collaborators)
    (hplan : mutationPlan k peers E ≠ []) (happly : c.applyOk = false) :
    upDaemonRun (oks ++ Except.error e :: rest) =
      (oks.length + 1, Except.error e) ∧
    mainExitCode (Except.error e) = 1 ∧
    (fetchApplyStage k peers cidrs E store c).result =
      Except.error "device apply failed" ∧
    (fetchApplyStage k peers cidrs E store c).hostsArg = none := by
  refine ⟨upDaemonRun_ok_leading oks hoks e rest, rfl, ?_, ?_⟩
  · unfold fetchApplyStage
    rw [if_neg (by simpa using hplan), if_neg (by simp [happly])]
  · unfold fetchApplyStage
    rw [if_neg (by simpa using hplan), if_neg (by simp [happly])]

/-- C8 (witness): the abort behaviour at a concrete run with one
successful cycle followed by a failing one. -/
theorem C8_error_abort_witness :
    (∀ r ∈ ([Except.ok ()] : List (Except String Unit)), r = Except.ok ()) ∧
    mutationPlan "IFACEKEYAAAA" [samplePeerN] [] ≠ [] ∧
    sampleEnvApplyFail.applyOk = false ∧
    (upDaemonRun [Except.ok (), Except.error "cycle failed"] =
      (2, Except.error "cycle failed") ∧
     mainExitCode (Except.error "cycle failed") = 1 ∧
     (fetchApplyStage "IFACEKEYAAAA" [samplePeerN] [] [] sampleStore
        sampleEnvApplyFail).result = Except.error "device apply failed" ∧
     (fetchApplyStage "IFACEKEYAAAA" [samplePeerN] [] [] sampleStore
        sampleEnvApplyFail).hostsArg = none) :=
  ⟨by simp, by simp [show mutationPlan "IFACEKEYAAAA" [samplePeerN] [] =
      [Mutation.add samplePeerN] from rfl], rfl,
   C8_error_abort [Except.ok ()] [] "cycle failed" (by simp) "IFACEKEYAAAA"
     [samplePeerN] [] [] sampleStore sampleEnvApplyFail
     (by simp [show mutationPlan "IFACEKEYAAAA" [samplePeerN] [] =
        [Mutation.add samplePeerN] from rfl]) rfl⟩

lemma slice10_eq_none_iff {s : String} : slice10 s = none ↔ s.length < 10 := by
  have hlen : s.length = s.data.length := rfl
  unfold slice10
  by_cases hc : 10 ≤ s.data.length
  · rw [if_pos hc]
    simp
    omega
  · rw [if_neg hc]
    simp
    omega

lemma slice10_facts {s f : String} (h : slice10 s = some f) :
    f.length = 10 ∧ 10 ≤ s.length ∧ (10 < s.length → f ≠ s) := by
  have hlen : s.length = s.data.length := rfl
  unfold slice10 at h
  by_cases hc : 10 ≤ s.data.length
  · rw [if_pos hc] at h
    have hf : f = String.mk (s.data.take 10) := by
      cases h
      rfl
    subst hf
    have hfl : (String.mk (s.data.take 10)).length = 10 := by
      show (s.data.take 10).length = 10
      rw [List.length_take]
      omega
    refine ⟨hfl, by omega, ?_⟩
    intro hlt heq
    have := congrArg String.length heq
    rw [hfl] at this
    omega
  · rw [if_neg hc] at h
    cases h

lemma renderLines_isSome (rs : List (Option String × String × ChangeKind))
    (h : ∀ r ∈ rs, 10 ≤ r.2.1.length) : (renderLines rs).isSome = true := by
  induction rs with
  | nil => simp [renderLines]
  | cons r t ih =>
    have h1 : 10 ≤ r.2.1.length := h r (List.mem_cons_self r t)
    have hs : slice10 r.2.1 = some (String.mk (r.2.1.data.take 10)) := by
      unfold slice10
      rw [if_pos (show 10 ≤ r.2.1.data.length from h1)]
    have ht := ih (fun x hx => h x (List.mem_cons_of_mem _ hx))
    rcases Option.isSome_iff_exists.1 ht with ⟨ls, hls⟩
    simp [renderLines, hs, hls]

lemma renderLines_none_of_short (rs : List (Option String × String × ChangeKind))
    (h : ∃ r ∈ rs, r.2.1.length < 10) : renderLines rs = none := by
  induction rs with
  | nil =>
    rcases h with ⟨r, hr, _⟩
    cases hr
  | cons r t ih =>
    rcases h with ⟨x, hx, hxlen⟩
    rcases List.mem_cons.1 hx with h1 | h1
    · subst h1
      have hs : slice10 x.2.1 = none := slice10_eq_none_iff.2 hxlen
      simp [renderLines, hs]
    · have hnone := ih ⟨x, h1, hxlen⟩
      rcases hs : slice10 r.2.1 with _ | f <;> simp [renderLines, hs, hnone]

/-- C10: every fingerprint is produced by the unchecked 10-byte slice of
the public key string, so it panics exactly when the key is shorter than
10 bytes: the change reporting of one fetch pass panics as soon as any
reported key is short and is total when all reported keys have length at
least 10, and the interface/peer display lines panic exactly when the
corresponding key is shorter than 10 bytes. -/
theorem C10_fingerprint_slice (s : String) (k : String) (peers : List Peer)
    (E : List PeerInfo) (dn dk : String) (me p9 : Peer) (short9 : Bool) :
    (slice10 s = none ↔ s.length < 10) ∧
    (10 ≤ s.length → slice10 s = some (String.mk (s.data.take 10))) ∧
    ((∃ r ∈ changeRecords k peers E, r.2.1.length < 10) →
      changeLines k peers E = none) ∧
    ((∀ r ∈ changeRecords k peers E, 10 ≤ r.2.1.length) →
      (changeLines k peers E).isSome = true) ∧
    (print_interface dn dk me short9 = none ↔ dk.length < 10) ∧
    (print_peer p9 short9 = none ↔ p9.publicKey.length < 10) := by
  refine ⟨slice10_eq_none_iff, ?_, ?_, ?_, ?_, ?_⟩
  · intro hlong
    unfold slice10
    rw [if_pos (show 10 ≤ s.data.length from hlong)]
  · intro hshort
    exact renderLines_none_of_short _ hshort
  · intro hlong
    exact renderLines_isSome _ hlong
  · rw [print_interface, Option.map_eq_none']
    exact slice10_eq_none_iff
  · rw [print_peer, Option.map_eq_none']
    exact slice10_eq_none_iff

/-- C10 (witness): a device peer with a 5-byte key makes the change
reporting of the pass that removes it panic. -/
theorem C10_fingerprint_slice_witness :
    (∃ r ∈ changeRecords "IFACEKEYAAAA" [] [sampleInfoShort],
      r.2.1.length < 10) ∧
    changeLines "IFACEKEYAAAA" [] [sampleInfoShort] = none :=
  ⟨⟨(none, "SHORT", ChangeKind.removed),
    by simp [show changeRecords "IFACEKEYAAAA" [] [sampleInfoShort] =
      [(none, "SHORT", ChangeKind.removed)] from rfl], by decide⟩,
   (C10_fingerprint_slice "x" "IFACEKEYAAAA" [] [sampleInfoShort] "wg0" "dk"
      samplePeerA samplePeerA false).2.2.1
     ⟨(none, "SHORT", ChangeKind.removed),
      by simp [show changeRecords "IFACEKEYAAAA" [] [sampleInfoShort] =
        [(none, "SHORT", ChangeKind.removed)] from rfl], by decide⟩⟩

lemma renderLines_some_mem (rs : List (Option String × String × ChangeKind))
    (ls : List ChangeLine) (h : renderLines rs = some ls) (l : ChangeLine)
    (hl : l ∈ ls) :
    ∃ r ∈ rs, slice10 r.2.1 = some l.fingerprint ∧ l.peerName = r.1 ∧
      l.kind = r.2.2 := by
  induction rs generalizing ls with
  | nil =>
    simp [renderLines] at h
    subst h
    cases hl
  | cons r t ih =>
    rcases hs : slice10 r.2.1 with _ | f
    · simp [renderLines, hs] at h
    · rcases hr : renderLines t with _ | ls'
      · simp [renderLines, hs, hr] at h
      · simp only [renderLines, hs, hr] at h
        injection h with h
        subst h
        rcases List.mem_cons.1 hl with h1 | h1
        · subst h1
          exact ⟨r, List.mem_cons_self r t, by rw [hs], rfl, rfl⟩
        · rcases ih ls' hr h1 with ⟨r', hr', hs', hn', hk'⟩
          exact ⟨r', List.mem_cons_of_mem _ hr', hs', hn', hk'⟩

lemma changeRecords_cases {k : String} {peers : List Peer} {E : List PeerInfo}
    {r : Option String × String × ChangeKind}
    (hr : r ∈ changeRecords k peers E) :
    (r.2.2 = ChangeKind.removed ∧ r.1 = none ∧
      ∃ ex ∈ E, ex.config.publicKey = r.2.1) ∨
    ((r.2.2 = ChangeKind.added ∨ r.2.2 = ChangeKind.modified) ∧
      ∃ p ∈ peers, r.1 = some p.name ∧ r.2.1 = p.publicKey) := by
  rcases List.mem_append.1 hr with h | h
  · right
    rcases List.mem_filterMap.1 h with ⟨p, hp, hf⟩
    have hpp : p ∈ peers := (mem_filteredPeers.1 hp).1
    rcases hfe : findExisting E p with _ | ex
    · rw [hfe] at hf
      simp only [Option.some.injEq] at hf
      subst hf
      exact ⟨Or.inl rfl, p, hpp, rfl, rfl⟩
    · rw [hfe] at hf
      rcases hd : p.diff ex.config with _ | d
      · simp [hd] at hf
      · simp only [hd, Option.map_some', Option.some.injEq] at hf
        subst hf
        exact ⟨Or.inr rfl, p, hpp, rfl, rfl⟩
  · left
    rcases List.mem_filterMap.1 h with ⟨ex, hex, hf⟩
    by_cases hc : (peers.find? (fun p => p.publicKey == ex.config.publicKey)).isNone
    · rw [if_pos hc] at hf
      simp only [Option.some.injEq] at hf
      subst hf
      exact ⟨rfl, rfl, ex, hex, rfl⟩
    · rw [if_neg hc] at hf
      cases hf

/-- C6 (counterexample): the removal report line of a reconciliation
pass carries no peer name — the source prints only the key fingerprint
for removed peers — refuting the claim that every change line identifies
the peer by name. -/
theorem C6_change_line_counterexample :
    changeLines "IFACEKEYAAAA" [] [sampleInfoG] =
      some [⟨none, "GGGGGGGGGG", ChangeKind.removed⟩] ∧
    (ChangeLine.mk none "GGGGGGGGGG" ChangeKind.removed).peerName = none :=
  ⟨rfl, rfl⟩

/-- C6 (amended): every added or modified change line identifies the
peer by its name together with the 10-character key fingerprint; removed
change lines carry the fingerprint only (no name); and the fingerprint
printed for any line is the 10-character slice of a reported key, never
the full key when the key is longer than 10 characters. -/
theorem C6_change_line_amended (k : String) (peers : List Peer)
    (E : List PeerInfo) (ls : List ChangeLine)
    (h : changeLines k peers E = some ls) (l : ChangeLine) (hl : l ∈ ls) :
    ((l.kind = ChangeKind.added ∨ l.kind = ChangeKind.modified) →
      ∃ p ∈ peers, l.peerName = some p.name ∧
        slice10 p.publicKey = some l.fingerprint) ∧
    (l.kind = ChangeKind.removed → l.peerName = none ∧
      ∃ ex ∈ E, slice10 ex.config.publicKey = some l.fingerprint) ∧
    (∃ key : String, slice10 key = some l.fingerprint ∧
      l.fingerprint.length = 10 ∧ (10 < key.length → l.fingerprint ≠ key)) := by
  obtain ⟨r, hr, hsl, hname, hkind⟩ :=
    renderLines_some_mem _ _ h l hl
  rcases changeRecords_cases hr with
    ⟨hrem, hrn, ex, hex, hexk⟩ | ⟨hk, p, hp, hn, hk2⟩
  · refine ⟨?_, ?_, r.2.1, hsl, (slice10_facts hsl).1, (slice10_facts hsl).2.2⟩
    · intro hkadd
      exfalso
      rcases hkadd with h1 | h1 <;> rw [hkind, hrem] at h1 <;> cases h1
    · intro _
      exact ⟨hname.trans hrn, ex, hex, by rw [hexk]; exact hsl⟩
  · refine ⟨?_, ?_, r.2.1, hsl, (slice10_facts hsl).1, (slice10_facts hsl).2.2⟩
    · intro _
      refine ⟨p, hp, by rw [hname, hn], ?_⟩
      rw [← hk2]
      exact hsl
    · intro hrem
      exfalso
      rw [hkind] at hrem
      rcases hk with h1 | h1 <;> rw [h1] at hrem <;> cases hrem

/-- C6 (witness): the amended statement applied to the pass that adds
the concrete new peer fixture. -/
theorem C6_change_line_amended_witness :
    changeLines "IFACEKEYAAAA" [samplePeerN] [] =
      some [⟨some "new", "NNNNNNNNNN", ChangeKind.added⟩] ∧
    (ChangeLine.mk (some "new") "NNNNNNNNNN" ChangeKind.added) ∈
      [ChangeLine.mk (some "new") "NNNNNNNNNN" ChangeKind.added] ∧
    ((((ChangeLine.mk (some "new") "NNNNNNNNNN" ChangeKind.added).kind =
        ChangeKind.added ∨
       (ChangeLine.mk (some "new") "NNNNNNNNNN" ChangeKind.added).kind =
        ChangeKind.modified) →
      ∃ p ∈ [samplePeerN],
        (ChangeLine.mk (some "new") "NNNNNNNNNN" ChangeKind.added).peerName =
          some p.name ∧
        slice10 p.publicKey = some
          (ChangeLine.mk (some "new") "NNNNNNNNNN" ChangeKind.added).fingerprint) ∧
     ((ChangeLine.mk (some "new") "NNNNNNNNNN" ChangeKind.added).kind =
        ChangeKind.removed →
      (ChangeLine.mk (some "new") "NNNNNNNNNN" ChangeKind.added).peerName = none ∧
      ∃ ex ∈ ([] : List PeerInfo), slice10 ex.config.publicKey = some
        (ChangeLine.mk (some "new") "NNNNNNNNNN" ChangeKind.added).fingerprint) ∧
     (∃ key : String, slice10 key = some
        (ChangeLine.mk (some "new") "NNNNNNNNNN" ChangeKind.added).fingerprint ∧
      (ChangeLine.mk (some "new") "NNNNNNNNNN" ChangeKind.added).fingerprint.length
        = 10 ∧
      (10 < key.length →
        (ChangeLine.mk (some "new") "NNNNNNNNNN" ChangeKind.added).fingerprint ≠
          key))) :=
  ⟨rfl, by simp,
   C6_change_line_amended "IFACEKEYAAAA" [samplePeerN] []
     [⟨some "new", "NNNNNNNNNN", ChangeKind.added⟩] rfl
     (ChangeLine.mk (some "new") "NNNNNNNNNN" ChangeKind.added) (by simp)⟩

lemma forall2_mem_left {α β : Type} {R : α → β → Prop} {l₁ : List α}
    {l₂ : List β} (h : List.Forall₂ R l₁ l₂) :
    ∀ a ∈ l₁, ∃ b ∈ l₂, R a b := by
  induction h with
  | nil => intro a ha; cases ha
  | cons hR _ ih =>
    intro x hx
    rcases List.mem_cons.1 hx with h1 | h1
    · subst h1
      exact ⟨_, by simp, hR⟩
    · rcases ih x h1 with ⟨b, hb, hRb⟩
      exact ⟨b, List.mem_cons_of_mem _ hb, hRb⟩

lemma forall2_mem_right {α β : Type} {R : α → β → Prop} {l₁ : List α}
    {l₂ : List β} (h : List.Forall₂ R l₁ l₂) :
    ∀ b ∈ l₂, ∃ a ∈ l₁, R a b := by
  induction h with
  | nil => intro b hb; cases hb
  | cons hR _ ih =>
    intro x hx
    rcases List.mem_cons.1 hx with h1 | h1
    · subst h1
      exact ⟨_, by simp, hR⟩
    · rcases ih x h1 with ⟨a, ha, hRa⟩
      exact ⟨a, List.mem_cons_of_mem _ ha, hRa⟩

/-- C3: when the filtered desired peer set is field-for-field identical
to the actual device peer set (elementwise equal keys with an empty
field diff, device keys unique), the reconciliation pass produces an
empty mutation plan, invokes no device apply and no hosts update. -/
theorem C3_idempotence (k : String) (peers : List Peer) (cidrs : List Cidr)
    (E : List PeerInfo) (store : Snapshot) (c : Collaborators)
    (hmatch : List.Forall₂ (fun p ex => p.publicKey = ex.config.publicKey ∧
      p.diff ex.config = none) (filteredPeers k peers) E)
    (hE : (E.map (fun ex => ex.config.publicKey)).Nodup) :
    mutationPlan k peers E = [] ∧
    (fetchApplyStage k peers cidrs E store c).applyCalled = false ∧
    (fetchApplyStage k peers cidrs E store c).hostsArg = none := by
  have hA : peerConfigsDiff k peers E = [] := by
    unfold peerConfigsDiff
    rw [List.filterMap_eq_nil_iff]
    intro p hp
    rcases forall2_mem_left hmatch p hp with ⟨ex, hex, hkey, hdiff⟩
    have hfind : findExisting E p = some ex := by
      unfold findExisting
      rw [hkey]
      exact find?_key_self (fun x : PeerInfo => x.config.publicKey) E ex hE hex
    simp [hfind, hdiff]
  have hR : removedPeers peers E = [] := by
    unfold removedPeers
    rw [List.filterMap_eq_nil_iff]
    intro ex hex
    rcases forall2_mem_right hmatch ex hex with ⟨p, hpf, hkey, _⟩
    have hcond : ¬ ((peers.find? (fun q =>
        q.publicKey == ex.config.publicKey)).isNone = true) := by
      intro hnone
      rw [Option.isNone_iff_eq_none, List.find?_eq_none] at hnone
      have h2 := hnone p (mem_filteredPeers.1 hpf).1
      simp [hkey] at h2
    rw [if_neg hcond]
  have hplan : mutationPlan k peers E = [] := by
    unfold mutationPlan
    rw [hA, hR]
    rfl
  exact ⟨hplan, by simp [fetchApplyStage, hplan], by simp [fetchApplyStage, hplan]⟩

/-- C3 (witness): the idempotence statement applied to a concrete
converged state. -/
theorem C3_idempotence_witness :
    List.Forall₂ (fun p ex => p.publicKey = ex.config.publicKey ∧
      p.diff ex.config = none)
      (filteredPeers "IFACEKEYAAAA" [samplePeerA]) [sampleInfoA] ∧
    (([sampleInfoA].map (fun ex => ex.config.publicKey)).Nodup) ∧
    (mutationPlan "IFACEKEYAAAA" [samplePeerA] [sampleInfoA] = [] ∧
     (fetchApplyStage "IFACEKEYAAAA" [samplePeerA] [] [sampleInfoA] sampleStore
        sampleEnvOk).applyCalled = false ∧
     (fetchApplyStage "IFACEKEYAAAA" [samplePeerA] [] [sampleInfoA] sampleStore
        sampleEnvOk).hostsArg = none) :=
  by
  have hf : filteredPeers "IFACEKEYAAAA" [samplePeerA] = [samplePeerA] := rfl
  have hmatch : List.Forall₂ (fun p ex => p.publicKey = ex.config.publicKey ∧
      p.diff ex.config = none)
      (filteredPeers "IFACEKEYAAAA" [samplePeerA]) [sampleInfoA] := by
    rw [hf]
    exact List.Forall₂.cons ⟨rfl, rfl⟩ List.Forall₂.nil
  exact ⟨hmatch, by simp,
    C3_idempotence "IFACEKEYAAAA" [samplePeerA] [] [sampleInfoA] sampleStore
      sampleEnvOk hmatch (by simp)⟩

lemma optTimeLt_trans {a b c : Option Nat} (h1 : optTimeLt a b = true)
    (h2 : optTimeLt b c = true) : optTimeLt a c = true := by
  cases a <;> cases b <;> cases c <;> simp [optTimeLt] at * <;> omega

lemma optTimeLt_irrefl (x : Option Nat) : optTimeLt x x = false := by
  cases x <;> simp [optTimeLt]

lemma peerOrderLe_trans (a b c : DisplayPeer) (h1 : peerOrderLe a b = true)
    (h2 : peerOrderLe b c = true) : peerOrderLe a c = true := by
  rw [peerOrderLe, Bool.or_eq_true, Bool.and_eq_true, decide_eq_true_eq,
    decide_eq_true_eq] at h1 h2 ⊢
  rcases h1 with h1 | ⟨h1e, h1i⟩ <;> rcases h2 with h2 | ⟨h2e, h2i⟩
  · exact Or.inl (optTimeLt_trans h2 h1)
  · rw [h2e] at h1
    exact Or.inl h1
  · rw [h1e]
    exact Or.inl h2
  · exact Or.inr ⟨h1e.trans h2e, le_trans h1i h2i⟩

lemma peerOrderLe_total (a b : DisplayPeer) :
    (peerOrderLe a b || peerOrderLe b a) = true := by
  by_cases he : a.lastHandshakeTime = b.lastHandshakeTime
  · simp [peerOrderLe, he]
    omega
  · rcases ha : a.lastHandshakeTime with _ | x <;>
      rcases hb : b.lastHandshakeTime with _ | y
    · rw [ha, hb] at he
      exact absurd rfl he
    · simp [peerOrderLe, ha, hb, optTimeLt]
    · simp [peerOrderLe, ha, hb, optTimeLt]
    · rw [ha, hb] at he
      simp at he
      simp [peerOrderLe, ha, hb, optTimeLt]
      omega

/-- C7: the presentation order of `show` is total (any two peers are
comparable), the sorted output is ordered by it and is a permutation of
the input; the order puts larger (more recent) handshake times first,
every peer without a recorded handshake after every peer with one, and
breaks handshake ties by ascending internal address; in particular
peers with handshakes at t1 < t2 and a third peer with no handshake
sort as [P2, P1, P3]. -/
theorem C7_sort_order (t1 t2 : Nat) (h : t1 < t2) (i1 i2 i3 : Nat)
    (n1 n2 n3 : String) (l : List DisplayPeer) (a b : DisplayPeer) :
    (peerOrderLe a b = true ∨ peerOrderLe b a = true) ∧
    (sortPeers l).Pairwise (fun x y => peerOrderLe x y = true) ∧
    (sortPeers l).Perm l ∧
    (a.lastHandshakeTime = none → b.lastHandshakeTime ≠ none →
      peerOrderLe b a = true ∧ peerOrderLe a b = false) ∧
    (∀ ta tb, a.lastHandshakeTime = some ta → b.lastHandshakeTime = some tb →
      tb < ta → peerOrderLe a b = true) ∧
    (a.lastHandshakeTime = b.lastHandshakeTime →
      (peerOrderLe a b = true ↔ a.ip ≤ b.ip)) ∧
    sortPeers [⟨n1, i1, some t1⟩, ⟨n2, i2, some t2⟩, ⟨n3, i3, none⟩] =
      [⟨n2, i2, some t2⟩, ⟨n1, i1, some t1⟩, ⟨n3, i3, none⟩] := by
  refine ⟨?_, ?_, ?_, ?_, ?_, ?_, ?_⟩
  · have htot := peerOrderLe_total a b
    rw [Bool.or_eq_true] at htot
    exact htot
  · exact List.sorted_mergeSort peerOrderLe_trans peerOrderLe_total l
  · exact List.mergeSort_perm l peerOrderLe
  · intro hna hnb
    rcases hb : b.lastHandshakeTime with _ | tb
    · exact absurd hb hnb
    · constructor
      · simp [peerOrderLe, hna, hb, optTimeLt]
      · simp [peerOrderLe, hna, hb, optTimeLt]
  · intro ta tb hta htb hlt
    simp [peerOrderLe, hta, htb, optTimeLt, hlt]
  · intro he
    simp [peerOrderLe, he, optTimeLt_irrefl]
  · simp [sortPeers, List.mergeSort, List.merge, peerOrderLe, optTimeLt, h,
      show ¬ t2 < t1 from by omega, show t1 ≠ t2 from by omega]

/-- C7 (witness): the ordering statement applied at concrete peers and
handshake times. -/
theorem C7_sort_order_witness :
    (0 : Nat) < 1 ∧
    ((peerOrderLe ⟨"x", 0, none⟩ ⟨"y", 1, some 5⟩ = true ∨
      peerOrderLe ⟨"y", 1, some 5⟩ ⟨"x", 0, none⟩ = true) ∧
     (sortPeers []).Pairwise (fun x y => peerOrderLe x y = true) ∧
     (sortPeers []).Perm [] ∧
     ((DisplayPeer.mk "x" 0 none).lastHandshakeTime = none →
      (DisplayPeer.mk "y" 1 (some 5)).lastHandshakeTime ≠ none →
      peerOrderLe ⟨"y", 1, some 5⟩ ⟨"x", 0, none⟩ = true ∧
      peerOrderLe ⟨"x", 0, none⟩ ⟨"y", 1, some 5⟩ = false) ∧
     (∀ ta tb, (DisplayPeer.mk "x" 0 none).lastHandshakeTime = some ta →
      (DisplayPeer.mk "y" 1 (some 5)).lastHandshakeTime = some tb →
      tb < ta → peerOrderLe ⟨"x", 0, none⟩ ⟨"y", 1, some 5⟩ = true) ∧
     ((DisplayPeer.mk "x" 0 none).lastHandshakeTime =
        (DisplayPeer.mk "y" 1 (some 5)).lastHandshakeTime →
      (peerOrderLe ⟨"x", 0, none⟩ ⟨"y", 1, some 5⟩ = true ↔
        (DisplayPeer.mk "x" 0 none).ip ≤ (DisplayPeer.mk "y" 1 (some 5)).ip)) ∧
     sortPeers [⟨"a", 1, some 0⟩, ⟨"b", 2, some 1⟩, ⟨"c", 3, none⟩] =
       [⟨"b", 2, some 1⟩, ⟨"a", 1, some 0⟩, ⟨"c", 3, none⟩]) :=
  ⟨by decide, C7_sort_order 0 1 (by decide) 1 2 3 "a" "b" "c" []
    ⟨"x", 0, none⟩ ⟨"y", 1, some 5⟩⟩

lemma mem_peerConfigsDiff_shape {k : String} {peers : List Peer}
    {E : List PeerInfo} {m : Mutation} (h : m ∈ peerConfigsDiff k peers E) :
    (∃ q, m = Mutation.add q) ∨ ∃ s d, m = Mutation.modify s d := by
  rcases List.mem_filterMap.1 h with ⟨q, _, hf⟩
  rcases hfe : findExisting E q with _ | ex
  · rw [hfe] at hf
    simp only [Option.some.injEq] at hf
    exact Or.inl ⟨q, hf.symm⟩
  · rw [hfe] at hf
    rcases hd : q.diff ex.config with _ | d
    · simp [hd] at hf
    · simp only [hd, Option.map_some', Option.some.injEq] at hf
      exact Or.inr ⟨q.publicKey, d, hf.symm⟩

lemma countP_key_eq_one {α β : Type} [DecidableEq β] {f : α → β} {l : List α}
    (h : (l.map f).Nodup) {a : α} (ha : a ∈ l) :
    l.countP (fun x => decide (f x = f a)) = 1 := by
  induction l with
  | nil => cases ha
  | cons b t ih =>
    rw [List.map_cons, List.nodup_cons] at h
    rcases List.mem_cons.1 ha with h1 | h1
    · subst h1
      have h0 : t.countP (fun x => decide (f x = f a)) = 0 := by
        rw [List.countP_eq_zero]
        intro x hx
        simp only [decide_eq_true_eq]
        exact fun he => h.1 (he ▸ List.mem_map_of_mem f hx)
      simp [List.countP_cons, h0]
    · have hba : f b ≠ f a := fun he => h.1 (he ▸ List.mem_map_of_mem f h1)
      simp [List.countP_cons, ih h.2 h1, hba]

lemma Peer.diff_def (p : Peer) (c : PeerConfig) :
    p.diff c =
      (if (if p.endpoint = c.endpoint then (none : Option (Option String))
            else some p.endpoint) = none ∧
          (if c.allowedIps = [p.ip] then (none : Option Nat)
            else some p.ip) = none ∧
          (if p.persistentKeepalive = c.persistentKeepalive
            then (none : Option (Option Nat))
            else some p.persistentKeepalive) = none
        then none
        else some
          ⟨if p.endpoint = c.endpoint then none else some p.endpoint,
           if c.allowedIps = [p.ip] then none else some p.ip,
           if p.persistentKeepalive = c.persistentKeepalive then none
            else some p.persistentKeepalive⟩) := rfl

lemma diff_some_only_changed {p : Peer} {c : PeerConfig} {d : PeerDiff}
    (h : p.diff c = some d) : diffOnlyChanged p c d := by
  rcases d with ⟨de, di, dk⟩
  rw [Peer.diff_def] at h
  unfold diffOnlyChanged
  by_cases h1 : p.endpoint = c.endpoint <;>
    by_cases h2 : c.allowedIps = [p.ip] <;>
      by_cases h3 : p.persistentKeepalive = c.persistentKeepalive <;>
        simp_all

lemma countP_filterMap_congr {α β : Type} (f : α → Option β) (pr : β → Bool)
    (g : α → Bool) (l : List α)
    (h : ∀ a ∈ l, ((f a).map pr).getD false = g a) :
    (l.filterMap f).countP pr = l.countP g := by
  rw [List.countP_filterMap]
  exact List.countP_congr (fun a ha => by rw [h a ha])

lemma countAdd_eq_one {k : String} {peers : List Peer} {E : List PeerInfo}
    {p : Peer} (hD : ((filteredPeers k peers).map Peer.publicKey).Nodup)
    (hpf : p ∈ filteredPeers k peers) (hnone : findExisting E p = none) :
    countAdd (mutationPlan k peers E) p = 1 := by
  unfold countAdd mutationPlan
  rw [List.countP_append]
  have hR0 : (removedPeers peers E).countP
      (fun m => decide (m = Mutation.add p)) = 0 := by
    rw [List.countP_eq_zero]
    intro m hm
    rcases mem_removedPeers_shape hm with ⟨s, rfl⟩
    simp
  rw [hR0, Nat.add_zero]
  unfold peerConfigsDiff
  have hcg : ∀ q ∈ filteredPeers k peers,
      ((Option.map (fun m => decide (m = Mutation.add p))
        (match findExisting E q with
          | some ex => (q.diff ex.config).map
              (fun d => Mutation.modify q.publicKey d)
          | none => some (Mutation.add q))).getD false) =
      decide (q.publicKey = p.publicKey) := by
    intro q hq
    rcases hfe : findExisting E q with _ | ex
    · by_cases hk : q.publicKey = p.publicKey
      · have hqp : q = p := nodup_key_inj hq hpf hD hk
        subst hqp
        simp [hfe]
      · have hqp : q ≠ p := fun he => hk (he ▸ rfl)
        simp [hfe, hk, hqp]
    · rcases hd : q.diff ex.config with _ | d9
      · by_cases hk : q.publicKey = p.publicKey
        · have hqp : q = p := nodup_key_inj hq hpf hD hk
          rw [hqp, hnone] at hfe
          cases hfe
        · simp [hfe, hd, hk]
      · by_cases hk : q.publicKey = p.publicKey
        · have hqp : q = p := nodup_key_inj hq hpf hD hk
          rw [hqp, hnone] at hfe
          cases hfe
        · simp [hfe, hd, hk]
  have h2 := countP_filterMap_congr _ _ _ _ hcg
  rw [h2]
  exact countP_key_eq_one (f := Peer.publicKey) hD hpf

lemma countRemove_eq_one {k : String} {peers : List Peer} {E : List PeerInfo}
    {ex : PeerInfo}
    (hE : (E.map (fun x => x.config.publicKey)).Nodup) (hex : ex ∈ E)
    (habs : ∀ p ∈ peers, p.publicKey ≠ ex.config.publicKey) :
    countRemove (mutationPlan k peers E) ex.config.publicKey = 1 := by
  unfold countRemove mutationPlan
  rw [List.countP_append]
  have hA0 : (peerConfigsDiff k peers E).countP
      (fun m => decide (m = Mutation.remove ex.config.publicKey)) = 0 := by
    rw [List.countP_eq_zero]
    intro m hm
    rcases mem_peerConfigsDiff_shape hm with ⟨q, rfl⟩ | ⟨s, d, rfl⟩ <;> simp
  rw [hA0, Nat.zero_add]
  unfold removedPeers
  have hcg : ∀ x ∈ E,
      ((Option.map (fun m => decide (m = Mutation.remove ex.config.publicKey))
        (if (peers.find? (fun p => p.publicKey == x.config.publicKey)).isNone
         then some (Mutation.remove x.config.publicKey)
         else none)).getD false) =
      decide (x.config.publicKey = ex.config.publicKey) := by
    intro x hx
    by_cases hc : (peers.find? (fun p =>
        p.publicKey == x.config.publicKey)).isNone = true
    · by_cases hk : x.config.publicKey = ex.config.publicKey
      · rw [if_pos hc]
        simp [hk]
      · rw [if_pos hc]
        simp [hk]
    · by_cases hk : x.config.publicKey = ex.config.publicKey
      · exfalso
        apply hc
        rw [Option.isNone_iff_eq_none, List.find?_eq_none]
        intro q hq
        simp only [beq_iff_eq]
        exact fun he => habs q hq (hk ▸ he)
      · simp [hc, hk]
  have h2 := countP_filterMap_congr _ _ _ _ hcg
  rw [h2]
  exact countP_key_eq_one (f := fun x : PeerInfo => x.config.publicKey) hE hex

lemma countModify_eq_one {k : String} {peers : List Peer} {E : List PeerInfo}
    {p : Peer} {ex : PeerInfo} {d : PeerDiff}
    (hD : ((filteredPeers k peers).map Peer.publicKey).Nodup)
    (hE : (E.map (fun x => x.config.publicKey)).Nodup)
    (hpf : p ∈ filteredPeers k peers) (hex : ex ∈ E)
    (hkey : ex.config.publicKey = p.publicKey)
    (hd : p.diff ex.config = some d) :
    countModifyKey (mutationPlan k peers E) p.publicKey = 1 ∧
    Mutation.modify p.publicKey d ∈ mutationPlan k peers E := by
  have hfind : findExisting E p = some ex := by
    unfold findExisting
    rw [← hkey]
    exact find?_key_self (fun x : PeerInfo => x.config.publicKey) E ex hE hex
  constructor
  · unfold countModifyKey mutationPlan
    rw [List.countP_append]
    have hR0 : (removedPeers peers E).countP (fun m =>
        match m with
        | Mutation.modify k9 _ => decide (k9 = p.publicKey)
        | _ => false) = 0 := by
      rw [List.countP_eq_zero]
      intro m hm
      rcases mem_removedPeers_shape hm with ⟨s, rfl⟩
      simp
    rw [hR0, Nat.add_zero]
    unfold peerConfigsDiff
    have hcg : ∀ q ∈ filteredPeers k peers,
        ((Option.map (fun m =>
          match m with
          | Mutation.modify k9 _ => decide (k9 = p.publicKey)
          | _ => false)
          (match findExisting E q with
            | some ex9 => (q.diff ex9.config).map
                (fun d9 => Mutation.modify q.publicKey d9)
            | none => some (Mutation.add q))).getD false) =
        decide (q.publicKey = p.publicKey) := by
      intro q hq
      rcases hfe : findExisting E q with _ | ex9
      · by_cases hk : q.publicKey = p.publicKey
        · have hqp : q = p := nodup_key_inj hq hpf hD hk
          rw [hqp, hfind] at hfe
          cases hfe
        · simp [hfe, hk]
      · rcases hd9 : q.diff ex9.config with _ | d9
        · by_cases hk : q.publicKey = p.publicKey
          · have hqp : q = p := nodup_key_inj hq hpf hD hk
            rw [hqp, hfind] at hfe
            injection hfe with hfe
            rw [hqp, ← hfe] at hd9
            rw [hd] at hd9
            cases hd9
          · simp [hfe, hd9, hk]
        · simp [hfe, hd9]
    have h2 := countP_filterMap_congr _ _ _ _ hcg
    rw [h2]
    exact countP_key_eq_one (f := Peer.publicKey) hD hpf
  · exact mem_mutationPlan.2
      (Or.inl (modify_mem_peerConfigsDiff.2 ⟨p, hpf, rfl, ex, hfind, hd⟩))

/-- C1 (spec-modelled diff): under the data-model invariant that public
keys are unique among the filtered desired peers and among the device
peers, one reconciliation pass is complete and exclusive: every
non-disabled non-self desired peer whose key is absent from the device
appears exactly once as an Add; every device peer whose key appears
nowhere in the desired list appears exactly once as a Remove; every peer
present in both with a non-empty field diff appears exactly once as a
Modify carrying exactly the changed fields; and no key appears in two of
the three categories. -/
theorem C1_plan_complete_exclusive (k : String) (peers : List Peer)
    (E : List PeerInfo)
    (hD : ((filteredPeers k peers).map Peer.publicKey).Nodup)
    (hE : (E.map (fun ex => ex.config.publicKey)).Nodup) :
    (∀ p ∈ peers, interfaceFilter k p = true →
      (∀ ex ∈ E, ex.config.publicKey ≠ p.publicKey) →
      countAdd (mutationPlan k peers E) p = 1) ∧
    (∀ ex ∈ E, (∀ p ∈ peers, p.publicKey ≠ ex.config.publicKey) →
      countRemove (mutationPlan k peers E) ex.config.publicKey = 1) ∧
    (∀ p ∈ peers, interfaceFilter k p = true → ∀ ex ∈ E,
      ex.config.publicKey = p.publicKey → ∀ d, p.diff ex.config = some d →
      countModifyKey (mutationPlan k peers E) p.publicKey = 1 ∧
      Mutation.modify p.publicKey d ∈ mutationPlan k peers E ∧
      diffOnlyChanged p ex.config d) ∧
    (∀ s : String,
      ¬(hasAddKey (mutationPlan k peers E) s ∧
        hasModifyKey (mutationPlan k peers E) s) ∧
      ¬(hasAddKey (mutationPlan k peers E) s ∧
        hasRemoveKey (mutationPlan k peers E) s) ∧
      ¬(hasModifyKey (mutationPlan k peers E) s ∧
        hasRemoveKey (mutationPlan k peers E) s)) := by
  refine ⟨?_, ?_, ?_, ?_⟩
  · intro p hp hfilter habs
    have hpf : p ∈ filteredPeers k peers := List.mem_filter.2 ⟨hp, hfilter⟩
    exact countAdd_eq_one hD hpf (findExisting_eq_none.2 habs)
  · intro ex hex habs
    exact countRemove_eq_one hE hex habs
  · intro p hp hfilter ex hex hkey d hd
    have hpf : p ∈ filteredPeers k peers := List.mem_filter.2 ⟨hp, hfilter⟩
    obtain ⟨hcount, hmem⟩ := countModify_eq_one hD hE hpf hex hkey hd
    exact ⟨hcount, hmem, diff_some_only_changed hd⟩
  · intro s
    refine ⟨?_, ?_, ?_⟩
    · intro hcon
      obtain ⟨h1, h2⟩ := hcon
      unfold hasAddKey at h1
      unfold hasModifyKey at h2
      obtain ⟨qa, hqa, hka⟩ := h1
      obtain ⟨d, hmd⟩ := h2
      rcases mem_mutationPlan.1 hqa with h | h
      · rcases mem_mutationPlan.1 hmd with h2 | h2
        · obtain ⟨hqaf, hqanone⟩ := add_mem_peerConfigsDiff.1 h
          rcases modify_mem_peerConfigsDiff.1 h2 with
            ⟨q9, hq9f, hq9k, ex, hfex, _⟩
          have hqq : qa = q9 := nodup_key_inj hqaf hq9f hD (by rw [hka, hq9k])
          rw [← hqq, hqanone] at hfex
          cases hfex
        · rcases mem_removedPeers_shape h2 with ⟨s9, hs9⟩
          simp at hs9
      · rcases mem_removedPeers_shape h with ⟨s9, hs9⟩
        simp at hs9
    · intro hcon
      obtain ⟨h1, h2⟩ := hcon
      unfold hasAddKey at h1
      unfold hasRemoveKey at h2
      obtain ⟨qa, hqa, hka⟩ := h1
      rcases mem_mutationPlan.1 hqa with h | h
      · have hqaf := (add_mem_peerConfigsDiff.1 h).1
        rcases mem_mutationPlan.1 h2 with h3 | h3
        · exact remove_not_mem_peerConfigsDiff h3
        · rcases remove_mem_removedPeers.1 h3 with ⟨ex, _, _, hnonep⟩
          exact hnonep qa (mem_filteredPeers.1 hqaf).1 hka
      · rcases mem_removedPeers_shape h with ⟨s9, hs9⟩
        simp at hs9
    · intro hcon
      obtain ⟨h1, h2⟩ := hcon
      unfold hasModifyKey at h1
      unfold hasRemoveKey at h2
      obtain ⟨d, hmd⟩ := h1
      rcases mem_mutationPlan.1 hmd with h | h
      · rcases modify_mem_peerConfigsDiff.1 h with ⟨q9, hq9f, hq9k, _⟩
        rcases mem_mutationPlan.1 h2 with h3 | h3
        · exact remove_not_mem_peerConfigsDiff h3
        · rcases remove_mem_removedPeers.1 h3 with ⟨ex, _, _, hnonep⟩
          exact hnonep q9 (mem_filteredPeers.1 hq9f).1 hq9k
      · rcases mem_removedPeers_shape h with ⟨s9, hs9⟩
        simp at hs9

/-- C1 (witness): the completeness and exclusivity statement applied to
a concrete pass with one peer to add, one to modify and one to
remove. -/
theorem C1_plan_complete_exclusive_witness :
    ((filteredPeers "IFACEKEYAAAA" [samplePeerN, samplePeerA2]).map
      Peer.publicKey).Nodup ∧
    (([sampleInfoA, sampleInfoG].map (fun ex => ex.config.publicKey)).Nodup) ∧
    ((∀ p ∈ [samplePeerN, samplePeerA2],
        interfaceFilter "IFACEKEYAAAA" p = true →
        (∀ ex ∈ [sampleInfoA, sampleInfoG],
          ex.config.publicKey ≠ p.publicKey) →
        countAdd (mutationPlan "IFACEKEYAAAA" [samplePeerN, samplePeerA2]
          [sampleInfoA, sampleInfoG]) p = 1) ∧
     (∀ ex ∈ [sampleInfoA, sampleInfoG],
        (∀ p ∈ [samplePeerN, samplePeerA2],
          p.publicKey ≠ ex.config.publicKey) →
        countRemove (mutationPlan "IFACEKEYAAAA" [samplePeerN, samplePeerA2]
          [sampleInfoA, sampleInfoG]) ex.config.publicKey = 1) ∧
     (∀ p ∈ [samplePeerN, samplePeerA2],
        interfaceFilter "IFACEKEYAAAA" p = true →
        ∀ ex ∈ [sampleInfoA, sampleInfoG],
        ex.config.publicKey = p.publicKey → ∀ d, p.diff ex.config = some d →
        countModifyKey (mutationPlan "IFACEKEYAAAA"
          [samplePeerN, samplePeerA2] [sampleInfoA, sampleInfoG])
          p.publicKey = 1 ∧
        Mutation.modify p.publicKey d ∈ mutationPlan "IFACEKEYAAAA"
          [samplePeerN, samplePeerA2] [sampleInfoA, sampleInfoG] ∧
        diffOnlyChanged p ex.config d) ∧
     (∀ s : String,
        ¬(hasAddKey (mutationPlan "IFACEKEYAAAA" [samplePeerN, samplePeerA2]
            [sampleInfoA, sampleInfoG]) s ∧
          hasModifyKey (mutationPlan "IFACEKEYAAAA"
            [samplePeerN, samplePeerA2] [sampleInfoA, sampleInfoG]) s) ∧
        ¬(hasAddKey (mutationPlan "IFACEKEYAAAA" [samplePeerN, samplePeerA2]
            [sampleInfoA, sampleInfoG]) s ∧
          hasRemoveKey (mutationPlan "IFACEKEYAAAA"
            [samplePeerN, samplePeerA2] [sampleInfoA, sampleInfoG]) s) ∧
        ¬(hasModifyKey (mutationPlan "IFACEKEYAAAA"
            [samplePeerN, samplePeerA2] [sampleInfoA, sampleInfoG]) s ∧
          hasRemoveKey (mutationPlan "IFACEKEYAAAA"
            [samplePeerN, samplePeerA2] [sampleInfoA, sampleInfoG]) s))) :=
  ⟨by decide, by decide,
   C1_plan_complete_exclusive "IFACEKEYAAAA" [samplePeerN, samplePeerA2]
     [sampleInfoA, sampleInfoG] (by decide) (by decide)⟩
